import Mathlib

/-!
Verification development for the bidiagonal real SVD solver
(`faer-libs/faer-svd/src/bidiag_real_svd.rs`).

The source is generic over a real field `E: RealField`.  We embed the
scalar type as `ℚ` (exact field arithmetic) and pass the square-root
operation `sq : ℚ → ℚ` as an explicit parameter, mirroring the
genericity of the Rust code (which obtains `faer_sqrt` from the
`RealField` trait).  Machine loops that the source bounds by a counter
are embedded as structurally recursive functions on that counter; the
two loops of the secular solver that carry no counter in the source
(secant refinement and fallback bisection) take an explicit fuel
argument.  Vectors are `List ℚ`; reads out of bounds use `getD _ 0`.
Matrices touched by the algorithms are lists of columns (rotations act
on column pairs) or of rows where the source writes rows.

Operations of this repository that live outside the provided source
file (faer-core rotation helpers) are modelled from the spec and marked
as such in their doc comments.
-/

namespace BidiagRealSvd

/-- Read element `i` of a rational vector, `0` out of bounds
(mirrors a slice read which in the source is always in bounds). -/
def getQ (l : List ℚ) (i : ℕ) : ℚ := l.getD i 0

/-- Write element `i` of a rational vector. -/
def setQ (l : List ℚ) (i : ℕ) (x : ℚ) : List ℚ := l.set i x

/-- Swap `slice.swap(i, j)`. -/
def swapQ (l : List ℚ) (i j : ℕ) : List ℚ :=
  (l.set i (getQ l j)).set j (getQ l i)

/-- The field's absolute value `faer_abs` (a `RealField` operation in
the source), written as the sign test it denotes on a scalar field. -/
def absQ (x : ℚ) : ℚ := if x < 0 then -x else x

/-- The larger of two values, written as the source's comparison
pattern `if |a| > |b| { a } else { b }` over already-taken absolute
values. -/
def maxQ (a b : ℚ) : ℚ := if a > b then a else b

/-- Fold computing the running maximum of absolute values, exactly as
the source pattern `if val > max_val { max_val = val }` starting from
zero. -/
def maxAbs (l : List ℚ) : ℚ :=
  l.foldl (fun m x => if absQ x > m then absQ x else m) 0

/-- An exact rational square root: returns the nonnegative root when
the argument is a square of a rational, `0` otherwise.  Used to
instantiate the `sq` parameter in witnesses/counterexamples at inputs
where every square-root call lands on a perfect square, so the run
agrees with the real-number semantics of the source. -/
def ratSqrt (q : ℚ) : ℚ :=
  if 0 ≤ q.num ∧ q.num.natAbs.sqrt * q.num.natAbs.sqrt = q.num.natAbs ∧
      q.den.sqrt * q.den.sqrt = q.den
  then (q.num.natAbs.sqrt : ℚ) / (q.den.sqrt : ℚ) else 0

/-- Like `ratSqrt` but positive on every positive input (returns `1`
off perfect squares); satisfies the `RealField` positivity law needed
as a hypothesis by some theorems. -/
def ratSqrtPos (q : ℚ) : ℚ :=
  if q ≤ 0 then 0 else if ratSqrt q = 0 then 1 else ratSqrt q

/-- A plane rotation `(c, s)`, as `faer_core::jacobi::JacobiRotation`. -/
structure Rot where
  c : ℚ
  s : ℚ
deriving Repr, DecidableEq

/-- Modelled from the spec: `make_givens(a, b)` returns the rotation
sending `(a, b)` to `(r, 0)` with `r` the (sign-preserving) hypotenuse;
identity when both are zero.  The function itself lives in `faer-core`,
outside the provided source file.  `sq` stands for the field's square
root. -/
def make_givens (sq : ℚ → ℚ) (a b : ℚ) : Rot :=
  if a = 0 ∧ b = 0 then ⟨1, 0⟩
  else
    let r := sq (a * a + b * b)
    ⟨a / r, -(b / r)⟩

/-- Modelled from the spec: applying a rotation to a pair of vectors
(two rows, or two columns) in place:
`X ← c·X − s·Y ; Y ← s·X + c·Y` (using original values), pointwise. -/
def rotApplyPair (rot : Rot) (x y : List ℚ) : List ℚ × List ℚ :=
  ((x.zip y).map fun p => rot.c * p.1 - rot.s * p.2,
   (x.zip y).map fun p => rot.s * p.1 + rot.c * p.2)

/-- Apply a rotation to columns `i` and `j` of a column-major matrix
(`apply_on_the_right_in_place` on `mat.col(i), mat.col(j)`; the
application routine is faer-core code, modelled from the spec). -/
def rotApplyCols (rot : Rot) (m : List (List ℚ)) (i j : ℕ) : List (List ℚ) :=
  let ci := m.getD i []
  let cj := m.getD j []
  let p := rotApplyPair rot ci cj
  (m.set i p.1).set j p.2

/-- Apply a rotation to rows `i` and `j` of a row-major matrix
(`apply_on_the_left_in_place` on `mat.row(i), mat.row(j)`; modelled
from the spec). -/
def rotApplyRows (rot : Rot) (m : List (List ℚ)) (i j : ℕ) : List (List ℚ) :=
  let ri := m.getD i []
  let rj := m.getD j []
  let p := rotApplyPair rot ri rj
  (m.set i p.1).set j p.2

/-! ## Implicit-QR fallback (`bidiag_svd_qr_algorithm_impl`) -/

/-- State carried by the QR iteration: the two bidiagonal vectors and
the optional `u`, `v` accumulators (held column-major, since the
algorithm rotates column pairs). -/
structure QrState where
  diag : List ℚ
  subdiag : List ℚ
  u : Option (List (List ℚ))
  v : Option (List (List ℚ))
deriving Repr

/-- The epsilon actually used inside the QR algorithm: the caller's
epsilon scaled by `128.0`
(`epsilon.faer_scale_real(E::faer_from_f64(128.0))`). -/
def qrScaledEps (epsilon : ℚ) : ℚ := 128 * epsilon

/-- Off-diagonal deflation pass of one outer QR iteration:
for `i ∈ [0, n−1)`, zero `subdiag[i]` when
`|subdiag[i]| ≤ eps·(|diag[i]| + |diag[i+1]|)` or `|subdiag[i]| ≤ eps`.
`eps` here is the already-scaled internal epsilon.  The source loop
updates in place; each test reads only `diag` (unmodified) and the
entry itself, so a pointwise rebuild is the same function. -/
def deflate_subdiag (eps : ℚ) (diag subdiag : List ℚ) : List ℚ :=
  let n := diag.length
  (List.range subdiag.length).map fun i =>
    let x := getQ subdiag i
    if i < n - 1 ∧ (absQ x ≤ eps * (absQ (getQ diag i) + absQ (getQ diag (i + 1))) ∨ absQ x ≤ eps)
    then 0 else x

/-- Diagonal snap pass: for `i ∈ [0, n)`, zero `diag[i]` when
`|diag[i]| ≤ eps`. -/
def snap_diag (eps : ℚ) (diag : List ℚ) : List ℚ :=
  diag.map fun x => if absQ x ≤ eps then 0 else x

/-- The `end` computation: largest active block end
(`while end > 1 && |subdiag[end-2]| <= czt.sqrt() { end -= 1 }`). -/
def qrFindEnd (sqCzt : ℚ) (subdiag : List ℚ) : ℕ → ℕ
  | 0 => 0
  | e + 1 =>
    if e + 1 > 1 ∧ absQ (getQ subdiag (e - 1)) ≤ sqCzt then qrFindEnd sqCzt subdiag e
    else e + 1

/-- The `start` computation
(`start = end - 1; while start > 0 && subdiag[start-1] != 0 { start -= 1 }`). -/
def qrFindStart (subdiag : List ℚ) : ℕ → ℕ
  | 0 => 0
  | s + 1 =>
    if getQ subdiag s ≠ 0 then qrFindStart subdiag s
    else s + 1

/-- Inner loop of the zero-diagonal chase: propagates the value `val`
to the right from column `i`, for `j ∈ [i+1, end)`. -/
def zeroChaseInner (sq : ℚ → ℚ) (i iEnd : ℕ) (st : QrState) (val : ℚ)
    (j : ℕ) : QrState × ℚ :=
  if h : j < iEnd then
    let rot := make_givens sq (getQ st.diag j) val
    let dj := absQ (rot.c * getQ st.diag j - rot.s * val)
    let vs :=
      if j < iEnd - 1 then
        (-(rot.s * getQ st.subdiag j), setQ st.subdiag j (rot.c * getQ st.subdiag j))
      else (val, st.subdiag)
    let v1 := st.v.map fun m => rotApplyCols rot m i j
    zeroChaseInner sq i iEnd
      { st with diag := setQ st.diag j dj, subdiag := vs.2, v := v1 } vs.1 (j + 1)
  else (st, val)
termination_by iEnd - j

/-- Zero-diagonal chase over `i ∈ [start, end−1)`: whenever
`diag[i] = 0`, zero `subdiag[i]` and chase the bulge to the right,
rotating `v` columns `(i, j)`.  Returns the updated state and whether
any zero diagonal was found. -/
def zeroChase (sq : ℚ → ℚ) (iStart iEnd : ℕ) (st : QrState) : QrState × Bool :=
  (List.range' iStart (iEnd - 1 - iStart)).foldl
    (fun acc i =>
      let st := acc.1
      if getQ st.diag i = 0 then
        let val := getQ st.subdiag i
        let st := { st with subdiag := setQ st.subdiag i 0 }
        let r := zeroChaseInner sq i iEnd st val (i + 1)
        (r.1, true)
      else acc)
    (st, false)

/-- The Wilkinson shift `mu` from the trailing 2×2 block of `BᵀB`
(the live, `d`-based branch of the source; the delta-based variant is
dead code behind `if false`). -/
def wilkinson_mu (sq : ℚ → ℚ) (czt : ℚ) (iStart iEnd : ℕ)
    (diag subdiag : List ℚ) : ℚ :=
  let t00 :=
    if iEnd - iStart = 2 then getQ diag (iEnd - 2) ^ 2
    else getQ diag (iEnd - 2) ^ 2 + getQ subdiag (iEnd - 3) ^ 2
  let t11 := getQ diag (iEnd - 1) ^ 2 + getQ subdiag (iEnd - 2) ^ 2
  let t01 := getQ diag (iEnd - 2) * getQ subdiag (iEnd - 2)
  let t01x2 := t01 ^ 2
  if t01x2 > czt then
    let d := (t00 - t11) * (1 / 2)
    let delta0 := sq (d ^ 2 + t01x2)
    let delta := if d < 0 then -delta0 else delta0
    t11 - t01x2 / (d + delta)
  else t11

/-- One step of the implicit bulge chase (loop body for
`k ∈ [start, end−1)`), carried state `(y, z)` plus the arrays. -/
def chaseStep (sq : ℚ → ℚ) (iStart iEnd : ℕ) (acc : QrState × ℚ × ℚ)
    (k : ℕ) : QrState × ℚ × ℚ :=
  let st := acc.1
  let y := acc.2.1
  let z := acc.2.2
  let rot := make_givens sq y z
  let subdiag :=
    if k > iStart then setQ st.subdiag (k - 1) (absQ (rot.c * y - rot.s * z))
    else st.subdiag
  let dk := getQ st.diag k
  let dk1 := rot.c * dk + (-rot.s * getQ subdiag k)
  let subdiag := setQ subdiag k (rot.s * dk + rot.c * getQ subdiag k)
  let y1 := dk1
  let z1 := -rot.s * getQ st.diag (k + 1)
  let diag := setQ st.diag (k + 1) (rot.c * getQ st.diag (k + 1))
  let u := st.u.map fun m => rotApplyCols rot m k (k + 1)
  let rot2 := make_givens sq y1 z1
  let dk2 := absQ (rot2.c * y1 - rot2.s * z1)
  let diag := setQ diag k dk2
  let sdk := rot2.c * getQ subdiag k + (-rot2.s * getQ diag (k + 1))
  let diag := setQ diag (k + 1) (rot2.s * getQ subdiag k + rot2.c * getQ diag (k + 1))
  let subdiag := setQ subdiag k sdk
  let yz :=
    if k < iEnd - 2 then
      (getQ subdiag k, -rot2.s * getQ subdiag (k + 1),
       setQ subdiag (k + 1) (rot2.c * getQ subdiag (k + 1)))
    else (y1, z1, subdiag)
  let v := st.v.map fun m => rotApplyCols rot2 m k (k + 1)
  ({ diag := diag, subdiag := yz.2.2, u := u, v := v }, yz.1, yz.2.1)

/-- The implicit chase for one outer iteration. -/
def qrChase (sq : ℚ → ℚ) (mu : ℚ) (iStart iEnd : ℕ) (st : QrState) : QrState :=
  let y := getQ st.diag iStart ^ 2 - mu
  let z := getQ st.diag iStart * getQ st.subdiag iStart
  ((List.range' iStart (iEnd - 1 - iStart)).foldl (chaseStep sq iStart iEnd)
    (st, y, z)).1

/-- Result of one outer QR sweep: either the loop breaks (`end = 1`)
or continues with the updated state. -/
inductive SweepOut where
  | brk (st : QrState)
  | cont (st : QrState)

/-- One outer iteration of the QR loop: off-diagonal deflation,
diagonal snap, active-block location, zero-diagonal chase, Wilkinson
shift and implicit chase.  `eps` is the internal (scaled) epsilon. -/
def qrSweep (sq : ℚ → ℚ) (eps czt : ℚ) (st : QrState) : SweepOut :=
  let n := st.diag.length
  let diag0 := st.diag
  let subdiag := deflate_subdiag eps diag0 st.subdiag
  let diag := snap_diag eps diag0
  let st := { st with diag := diag, subdiag := subdiag }
  let iEnd := qrFindEnd (sq czt) subdiag n
  if iEnd = 1 then .brk st
  else
    let iStart := qrFindStart subdiag (iEnd - 1)
    let r := zeroChase sq iStart iEnd st
    if r.2 then .cont r.1
    else
      let mu := wilkinson_mu sq czt iStart iEnd r.1.diag r.1.subdiag
      .cont (qrChase sq mu iStart iEnd r.1)

/-- The outer QR loop (`for iter in 0..max_iter`), returning the final
state and the number of sweeps that were entered. -/
def qrLoop (sq : ℚ → ℚ) (eps czt : ℚ) : ℕ → QrState → QrState × ℕ
  | 0, st => (st, 0)
  | fuel + 1, st =>
    match qrSweep sq eps czt st with
    | .brk st1 => (st1, 1)
    | .cont st1 =>
      let r := qrLoop sq eps czt fuel st1
      (r.1, r.2 + 1)

/-- Post-processing: make every diagonal entry nonnegative, flipping
the corresponding column of `v`. -/
def qrFlipSigns (st : QrState) : QrState :=
  (List.range st.diag.length).foldl
    (fun st j =>
      if getQ st.diag j < 0 then
        { st with
          diag := setQ st.diag j (-getQ st.diag j)
          v := st.v.map fun m => m.set j ((m.getD j []).map Neg.neg) }
      else st)
    st

/-- Index of the maximum of `diag[k..n)`, with the running maximum
starting at `0` and strict comparison, exactly as in the source. -/
def qrSelectMax (diag : List ℚ) (k n : ℕ) : ℕ :=
  ((List.range' k (n - k)).foldl
    (fun acc kk => if getQ diag kk > acc.1 then (getQ diag kk, kk) else acc)
    (0, k)).2

/-- Selection sort (descending) of `diag` with cooperative column swaps
in `u` and `v`. -/
def qrSortDesc (st : QrState) : QrState :=
  let n := st.diag.length
  (List.range n).foldl
    (fun st k =>
      let mi := qrSelectMax st.diag k n
      if k ≠ mi then
        { diag := swapQ st.diag k mi
          subdiag := st.subdiag
          u := st.u.map fun m => (m.set k (m.getD mi [])).set mi (m.getD k [])
          v := st.v.map fun m => (m.set k (m.getD mi [])).set mi (m.getD k []) }
      else st)
    st

/-- Identity matrix with `n` columns of height `n`, as produced by
`fill_zero` followed by writing ones on the diagonal. -/
def idCols (n : ℕ) : List (List ℚ) :=
  (List.range n).map fun j => (List.range n).map fun i => if i = j then (1 : ℚ) else 0

/-- Function `bidiag_svd_qr_algorithm_impl`: the full implicit-QR fallback.
`epsilon` and `czt` are the caller's epsilon / near-zero threshold.
The `max_val` normalization mirrors the source exactly: the computed
maximum is immediately shadowed by `1`, the all-zero early return
tests that shadowed value, and the entry/exit division/multiplication
use it. -/
def bidiag_svd_qr_algorithm_impl (sq : ℚ → ℚ) (epsilon czt : ℚ)
    (diag subdiag : List ℚ) (wantU wantV : Bool) : QrState × ℕ :=
  let n := diag.length
  let maxIter := 30 * n * n
  let eps := qrScaledEps epsilon
  let u := if wantU then some (idCols n) else none
  let v := if wantV then some (idCols n) else none
  let maxVal0 := maxAbs (diag ++ subdiag)
  let maxVal := (1 : ℚ)
  if maxVal = 0 then ({ diag := diag, subdiag := subdiag, u := u, v := v }, 0)
  else
    let _ := maxVal0
    let diag := diag.map (· / maxVal)
    let subdiag := subdiag.map (· / maxVal)
    let r := qrLoop sq eps czt maxIter { diag := diag, subdiag := subdiag, u := u, v := v }
    let st := qrSortDesc (qrFlipSigns r.1)
    ({ st with diag := st.diag.map (· * maxVal) }, r.2)

/-- The same algorithm with the `max_val` normalization and
denormalization steps removed (for the no-op claim). -/
def bidiag_svd_qr_algorithm_noNorm (sq : ℚ → ℚ) (epsilon czt : ℚ)
    (diag subdiag : List ℚ) (wantU wantV : Bool) : QrState × ℕ :=
  let n := diag.length
  let maxIter := 30 * n * n
  let eps := qrScaledEps epsilon
  let u := if wantU then some (idCols n) else none
  let v := if wantV then some (idCols n) else none
  let r := qrLoop sq eps czt maxIter { diag := diag, subdiag := subdiag, u := u, v := v }
  let st := qrSortDesc (qrFlipSigns r.1)
  (st, r.2)

/-! ## Deflation (`deflate`, `deflation43`, `deflation44`) -/

/-- Read element `i` of an index vector, `0` out of bounds. -/
def getN (l : List ℕ) (i : ℕ) : ℕ := l.getD i 0

/-- Swap `slice.swap(i, j)` on an index vector. -/
def swapN (l : List ℕ) (i j : ℕ) : List ℕ :=
  (l.set i (getN l j)).set j (getN l i)

/-- Function `deflation43`: Jacobi rotation on rows `(0, i)` zeroing `col0[i]`
into `col0[0]` and `diag[i]` into `diag[0]`.  The `u` argument mirrors
the `_u: MatMut<E>` parameter of the source, which is received and
ignored; it is returned unchanged. -/
def deflation43 (sq : ℚ → ℚ) (diag col0 : List ℚ) (u : List (List ℚ)) (i : ℕ) :
    List ℚ × List ℚ × List (List ℚ) × Option Rot :=
  let c := getQ col0 0
  let s := getQ col0 i
  let r := sq (c * c + s * s)
  if r = 0 then (setQ diag i 0, col0, u, none)
  else
    (setQ (setQ diag 0 r) i 0,
     setQ (setQ col0 0 r) i 0,
     u,
     some ⟨c / r, -(s / r)⟩)

/-- Function `deflation44`: Jacobi rotation collapsing the near-equal pair
`(diag[i], diag[j])`; `_u`, `_v` are received and ignored by the
source, so they are not threaded here. -/
def deflation44 (sq : ℚ → ℚ) (diag col0 : List ℚ) (i j : ℕ) :
    List ℚ × List ℚ × Option Rot :=
  let c := getQ col0 i
  let s := getQ col0 j
  let r := sq (c * c + s * s)
  if r = 0 then (setQ diag i (getQ diag j), col0, none)
  else
    let c1 := c / r
    let s1 := -(s / r)
    (setQ diag j (getQ diag i),
     setQ (setQ col0 i r) j 0,
     some ⟨c1, s1⟩)

/-- Condition-4.2 prune: zero every `col0[i]`, `i ≥ 1`, with
`|col0[i]| < epsilon_strict`. -/
def deflate42 (strict : ℚ) (col0 : List ℚ) : List ℚ :=
  match col0 with
  | [] => []
  | h :: t => h :: t.map fun x => if absQ x < strict then 0 else x

/-- Condition-4.3 pass: for `i ∈ [1, n)` with `diag[i] < epsilon_coarse`,
run `deflation43` and record the produced rotation with its index. -/
def deflate43Pass (sq : ℚ → ℚ) (coarse : ℚ) (n : ℕ)
    (diag col0 : List ℚ) (u : List (List ℚ)) :
    List ℚ × List ℚ × List (List ℚ) × List (Rot × ℕ) :=
  (List.range' 1 (n - 1)).foldl
    (fun acc i =>
      let (diag, col0, u, rots) := acc
      if getQ diag i < coarse then
        let r := deflation43 sq diag col0 u i
        match r.2.2.2 with
        | some rot => (r.1, r.2.1, r.2.2.1, rots ++ [(rot, i)])
        | none => (r.1, r.2.1, r.2.2.1, rots)
      else acc)
    (diag, col0, u, [])

/-- Permutation construction: indices with `|diag[i]| < czt` first
(in index order), then the merge of the two sorted halves
`[1, k]` and `[k+1, n)` picking the larger head first. -/
def deflatePermBuild (czt : ℚ) (n k : ℕ) (diag : List ℚ) : List ℕ :=
  let z :=
    (List.range' 1 (n - 1)).foldl
      (fun acc i =>
        if absQ (getQ diag i) < czt then (acc.1.set acc.2 i, acc.2 + 1) else acc)
      (List.replicate n 0, 1)
  let merged :=
    (List.range' z.2 (n - z.2)).foldl
      (fun acc slot =>
        let (perm, i, j) := acc
        if i > k then (perm.set slot j, i, j + 1)
        else if j ≥ n then (perm.set slot i, i + 1, j)
        else if getQ diag i < getQ diag j then (perm.set slot j, i, j + 1)
        else (perm.set slot i, i + 1, j))
      (z.1, 1, k + 1)
  merged.1

/-- The total-deflation fixup loop (`for i in 1..n` with `break`). -/
def deflateTotalFixup (czt : ℚ) (diag : List ℚ) (perm : List ℕ) :
    List ℕ → List ℕ
  | [] => perm
  | i :: rest =>
    let pi := getN perm i
    if absQ (getQ diag pi) < czt ∨ getQ diag pi > getQ diag 0 then
      deflateTotalFixup czt diag (perm.set (i - 1) pi) rest
    else perm.set (i - 1) 0

/-- State of the physical reordering loop: arrays, transposition record
and the `real_ind` / `real_col` bookkeeping. -/
structure SortApplySt where
  diag : List ℚ
  col0 : List ℚ
  transpositions : List ℕ
  realInd : List ℕ
  realCol : List ℕ

/-- The physical reordering loop of `deflate`: swaps `diag`/`col0`
into the order described by `perm`, recording transpositions. -/
def deflateSortApply (total : Bool) (n : ℕ) (perm : List ℕ)
    (diag col0 : List ℚ) : SortApplySt :=
  let start := if total then 0 else 1
  (List.range' start (n - start)).foldl
    (fun st i =>
      let pi := getN perm (n - (if total then i + 1 else i))
      let j := getN st.realCol pi
      let diag := swapQ st.diag i j
      let col0 := if i ≠ 0 ∧ j ≠ 0 then swapQ st.col0 i j else st.col0
      let transpositions := st.transpositions.set i j
      let realI := getN st.realInd i
      let realCol := (st.realCol.set realI j).set pi i
      let realInd := (st.realInd.set j realI).set i pi
      { diag := diag, col0 := col0, transpositions := transpositions,
        realInd := realInd, realCol := realCol })
    { diag := diag, col0 := col0, transpositions := List.replicate n 0,
      realInd := List.range n, realCol := List.range n }

/-- Downward scan locating the top of the condition-4.4 range
(`while i > 0 && (|diag[i]| < czt || |col0[i]| < czt) { i -= 1 }`). -/
def scan44 (czt : ℚ) (diag col0 : List ℚ) : ℕ → ℕ
  | 0 => 0
  | i + 1 =>
    if absQ (getQ diag (i + 1)) < czt ∨ absQ (getQ col0 (i + 1)) < czt then
      scan44 czt diag col0 i
    else i + 1

/-- The condition-4.4 loop (`while i > 1`), collecting its rotations. -/
def loop44 (sq : ℚ → ℚ) (strict : ℚ) (diag col0 : List ℚ)
    (rots : List (Rot × ℕ)) : ℕ → List ℚ × List ℚ × List (Rot × ℕ)
  | 0 => (diag, col0, rots)
  | 1 => (diag, col0, rots)
  | i + 2 =>
    if getQ diag (i + 2) - getQ diag (i + 1) < strict then
      let r := deflation44 sq diag col0 (i + 1) (i + 2)
      match r.2.2 with
      | some rot => loop44 sq strict r.1 r.2.1 (rots ++ [(rot, i + 2)]) (i + 1)
      | none => loop44 sq strict r.1 r.2.1 rots (i + 1)
    else loop44 sq strict diag col0 rots (i + 1)

/-- Output of `deflate`: the mutated arrays, the untouched `u`/`v`,
the two buckets of deferred rotations and the permutation. -/
structure DeflateOut where
  diag : List ℚ
  col0 : List ℚ
  u : List (List ℚ)
  v : Option (List (List ℚ))
  rots0 : List (Rot × ℕ)
  rots1 : List (Rot × ℕ)
  perm : List ℕ

/-- Function `deflate`: guard (4.1), prune (4.2), degenerate diagonal (4.3),
sorting and permutation, close diagonals (4.4).  `k` is the split
index, `epsilon` / `czt` the tolerance arguments. -/
def deflate (sq : ℚ → ℚ) (diag col0 : List ℚ) (u : List (List ℚ))
    (v : Option (List (List ℚ))) (k : ℕ) (epsilon czt : ℚ) : DeflateOut :=
  let n := diag.length
  let maxDiag := maxAbs (diag.drop 1)
  let maxCol0 := maxAbs col0
  let strict0 := epsilon * maxDiag
  let strict := if strict0 > czt then strict0 else czt
  let coarse := 8 * epsilon * (if maxDiag > maxCol0 then maxDiag else maxCol0)
  -- condition 4.1
  let d0 := getQ diag 0
  let diag := if d0 < coarse then setQ diag 0 coarse else diag
  let col0 := if d0 < coarse then setQ col0 0 coarse else col0
  -- condition 4.2
  let col0 := deflate42 strict col0
  -- condition 4.3
  let p43 := deflate43Pass sq coarse n diag col0 u
  let diag := p43.1
  let col0 := p43.2.1
  let rots0 := p43.2.2.2
  let total := (col0.drop 1).all fun c => absQ c < czt
  -- permutation
  let perm := deflatePermBuild czt n k diag
  let perm :=
    if total then deflateTotalFixup czt diag perm (List.range' 1 (n - 1))
    else perm
  -- physical reordering
  let sa := deflateSortApply total n perm diag col0
  let diag := sa.diag
  let col0 := setQ sa.col0 0 (getQ diag 0)
  let perm :=
    (List.range n).foldl (fun pm i => swapN pm i (getN sa.transpositions i))
      (List.range n)
  -- condition 4.4
  let i0 := scan44 czt diag col0 (n - 1)
  let p44 := loop44 sq strict diag col0 [] i0
  { diag := p44.1, col0 := p44.2.1, u := p43.2.2.1, v := v,
    rots0 := rots0, rots1 := p44.2.2, perm := perm }

/-! ## Secular solver (`compute_singular_values_generic`) -/

/-- Function `secular_eq`: `1 + Σ (c/(d−shift−μ))·(c/(d+shift+μ))` over the
active entries.  The source unrolls the sum into eight lanes for ILP;
over an exact field the lane split is a reassociation of the same
rational-valued sum, so a single fold is the same function. -/
def secular_eq (mu : ℚ) (col0p diagp : List ℚ) (shift : ℚ) : ℚ :=
  (col0p.zip diagp).foldl
    (fun acc cd =>
      acc + (cd.1 / (cd.2 - shift - mu)) * (cd.1 / (cd.2 + shift + mu)))
    1

/-- One lane of `secular_eq_multi_fast`:
`1 + Σ c²/((d−shift−μ)·(d+shift+μ))`.  The multi-point variant
evaluates each requested `(μ, shift)` pair with this formula inside a
shared loop; its lanes are independent, so the pointwise function is
the same. -/
def secular_eq_fast1 (mu : ℚ) (col0p diagp : List ℚ) (shift : ℚ) : ℚ :=
  (col0p.zip diagp).foldl
    (fun acc cd =>
      acc + (cd.1 * cd.1) / ((cd.2 - shift - mu) * (cd.2 + shift + mu)))
    1

/-- The `actual_n` computation:
`while actual_n > 1 && col0[actual_n-1] == 0 { actual_n -= 1 }`. -/
def actualN (col0 : List ℚ) : ℕ → ℕ
  | 0 => 0
  | m + 1 => if m + 1 > 1 ∧ getQ col0 m = 0 then actualN col0 m else m + 1

/-- The scan `let mut l = k + 1; while col0[l] == 0 { l += 1 }` — in context the
scan stays inside the active range; embedded with the remaining-range
bound as fuel. -/
def findL (col0 : List ℚ) : ℕ → ℕ → ℕ
  | l, 0 => l
  | l, fuel + 1 => if getQ col0 l = 0 then findL col0 (l + 1) fuel else l

/-- Bracket state of the pre-solve bisection loop:
`(left_shifted, f_left, right_shifted, f_right, f_prev,
iteration_count)`. -/
structure PresolveSt where
  L : ℚ
  fL : ℚ
  R : ℚ
  fR : ℚ
  fPrev : ℚ
deriving Repr, DecidableEq

/-- Midpoint selection of one pre-solve bisection step: the
sign-carrying geometric midpoint `±(√|L|·√|R|)` when it is nonzero,
the arithmetic midpoint otherwise. -/
def presolveMid (sq : ℚ → ℚ) (L R : ℚ) : ℚ :=
  let arith := (L + R) * (1 / 2)
  let geom0 := sq (absQ L) * sq (absQ R)
  let geom := if L < 0 then -geom0 else geom0
  if geom = 0 then arith else geom

/-- Outcome of the pre-solve loop: an exact root (`continue
'kth_value`) or the final bracket. -/
inductive PresolveRes where
  | early (mid : ℚ)
  | done (st : PresolveSt)
deriving Repr, DecidableEq

/-- The pre-solve bisection loop (`// try bisection just to get a good
guess for secant`), together with the number of bisection steps it
executed.  The loop is intrinsically bounded by its iteration counter;
the fuel argument is always called with a value larger than that
bound. -/
def presolveLoop (sq : ℚ → ℚ) (col0p diagp : List ℚ) (shift eps : ℚ) :
    ℕ → ℕ → PresolveSt → PresolveRes × ℕ
  | 0, _, st => (.done st, 0)
  | fuel + 1, count, st =>
    if st.R - st.L > 2 * eps * maxQ (absQ st.L) (absQ st.R) then
      let mid := presolveMid sq st.L st.R
      let fMid := secular_eq mid col0p diagp shift
      if fMid = 0 then (.early mid, 1)
      else
        let st1 :=
          if fMid > 0 then { st with R := mid, fPrev := st.fR, fR := fMid }
          else { st with L := mid, fPrev := st.fL, fL := fMid }
        if count = 4 then (.done st1, 1)
        else
          let r := presolveLoop sq col0p diagp shift eps fuel (count + 1) st1
          (r.1, r.2 + 1)
    else (.done st, 0)

/-- Outcome of the per-index work up to and including the pre-solve
loop: the trivial case, an exact pre-solve root, or the data handed to
the secant refinement. -/
inductive PresolvePhaseOut where
  | trivialCase (s : ℚ)
  | early (shift mid : ℚ) (steps : ℕ)
  | toSecant (shift left right : ℚ) (st : PresolveSt) (steps : ℕ)
deriving Repr, DecidableEq

/-- Packaging of the pre-solve loop result into the phase output. -/
def presolveFinish (shift left right : ℚ) (r : PresolveRes × ℕ) :
    PresolvePhaseOut :=
  match r with
  | (.early mid, steps) => .early shift mid steps
  | (.done st, steps) => .toSecant shift left right st steps

/-- Per-index computation of `compute_singular_values_generic` up to
and including the pre-solve bisection loop: trivial-case exit, shift
selection (with the shifted-midpoint correction), initial bracket,
eight-point warm start, pre-solve bisection. -/
def presolvePhase (sq : ℚ → ℚ) (diag col0 diagp col0p : List ℚ)
    (eps : ℚ) (k : ℕ) : PresolvePhaseOut :=
  let n := diag.length
  let aN := actualN col0 n
  if getQ col0 k = 0 ∨ aN = 1 then
    .trivialCase (if k = 0 then getQ col0 0 else getQ diag k)
  else
    let lastK := k = aN - 1
    let left := getQ diag k
    let right :=
      if lastK then
        getQ diag (aN - 1) + sq (col0.foldl (fun a x => a + x * x) 0)
      else getQ diag (findL col0 (k + 1) (n - (k + 1)))
    let mid := left + (right - left) * (1 / 2)
    let fMid0 := secular_eq_fast1 mid col0p diagp 0
    let fMax := secular_eq_fast1
      (if lastK then right - left else (right - left) * (1 / 2)) col0p diagp left
    let fMidLS := secular_eq_fast1 ((1 / 2) * (right - left)) col0p diagp left
    let fMidRS := secular_eq_fast1 (-((1 / 2) * (right - left))) col0p diagp right
    let shift0 := if lastK ∨ fMid0 > 0 then left else right
    let sf :=
      if ¬lastK then
        if shift0 = left then
          if fMidLS < 0 then (right, fMidRS) else (shift0, fMid0)
        else if fMidRS > 0 then (left, fMidLS) else (shift0, fMid0)
      else (shift0, fMid0)
    let shift := sf.1
    let fMid := sf.2
    let br :=
      if shift = left then
        ((0 : ℚ), -(0 : ℚ)⁻¹,
         if lastK then right - left else (right - left) * (1 / 2),
         if lastK then fMax else fMid)
      else
        (-((right - left) * (1 / 2)), fMid, (0 : ℚ), (0 : ℚ)⁻¹)
    let half0 := (1 : ℚ) / 2
    let half1 := half0 * half0
    let half2 := half1 * half1
    let half3 := half2 * half2
    let half4 := half3 * half3
    let half5 := half4 * half4
    let half6 := half5 * half5
    let half7 := half6 * half6
    let base := if shift = left then br.2.2.1 else br.1
    let muValues := [base * half7, base * half6, base * half5, base * half4,
                     base * half3, base * half2, base * half1, base * half0]
    let fValues := muValues.map fun mu => secular_eq_fast1 mu col0p diagp shift
    let ws :=
      if shift = left then
        let w :=
          (muValues.zip fValues).foldl
            (fun acc p => if p.2 < 0 then (p.1, p.2, acc.2.2 + 1) else acc)
            (br.1, br.2.1, 0)
        let i := w.2.2
        if i < fValues.length then
          (w.1, w.2.1, muValues.getD i 0, fValues.getD i 0)
        else (w.1, w.2.1, br.2.2.1, br.2.2.2)
      else
        let w :=
          (muValues.zip fValues).foldl
            (fun acc p => if p.2 > 0 then (p.1, p.2, acc.2.2 + 1) else acc)
            (br.2.2.1, br.2.2.2, 0)
        let i := w.2.2
        if i < fValues.length then
          (muValues.getD i 0, fValues.getD i 0, w.1, w.2.1)
        else (br.1, br.2.1, w.1, w.2.1)
    let st0 : PresolveSt := ⟨ws.1, ws.2.1, ws.2.2.1, ws.2.2.2, fMid⟩
    presolveFinish shift left right (presolveLoop sq col0p diagp shift eps 6 0 st0)

/-- Output of the secant closure:
`(use_bisection, mu_cur, left_candidate, right_candidate)`; the `err`
value is bound as `_err` by the caller and never used. -/
structure SecantOut where
  useBisection : Bool
  muCur : ℚ
  leftCand : Option ℚ
  rightCand : Option ℚ
deriving Repr, DecidableEq

/-- The four-point exponential probe executed when the secant step
diverges (`find mu such that a / mu + b = -k * f_zero`). -/
def oppositeProbe (col0p diagp : List ℚ) (shift a b fZero : ℚ)
    (lc rc : Option ℚ) : ℕ → ℚ → Option ℚ × Option ℚ
  | 0, _ => (lc, rc)
  | fuel + 1, kk =>
    let muOp := -(a / (kk * fZero + b))
    let fOp := secular_eq muOp col0p diagp shift
    if fZero < 0 ∧ fOp ≥ 0 then (lc, some muOp)
    else if fZero > 0 ∧ fOp ≤ 0 then (some muOp, rc)
    else oppositeProbe col0p diagp shift a b fZero lc rc fuel (kk * 2)

/-- Main loop of the secant closure (rational interpolation through
the last two iterates).  The source loop carries no iteration bound;
`fuel` models a sufficiently long run. -/
def secantGo (col0p diagp : List ℚ) (shift eps left right : ℚ) :
    ℕ → ℚ → ℚ → ℚ → ℚ → Option ℚ → Option ℚ → SecantOut
  | fuel, muCur, muPrev, fCur, fPrev, lc, rc =>
    if fCur = 0 then ⟨false, muCur, lc, rc⟩
    else if ¬(absQ (muCur - muPrev) >
        8 * eps * maxQ (absQ muCur) (absQ muPrev)) then
      ⟨false, muCur, lc, rc⟩
    else if ¬(absQ (fCur - fPrev) > eps) then ⟨false, muCur, lc, rc⟩
    else
      match fuel with
      | 0 => ⟨false, muCur, lc, rc⟩
      | fuel + 1 =>
        let a := (fCur - fPrev) * (muPrev * muCur) / (muPrev - muCur)
        let b := fCur - a / muCur
        let muZero := -(a / b)
        let fZero := secular_eq muZero col0p diagp shift
        let lc1 := if fZero < 0 then some muZero else lc
        let rc1 := if fZero < 0 then rc else some muZero
        let outOfBounds :=
          (shift = left ∧ (muZero < 0 ∨ muZero > right - left)) ∨
          (shift = right ∧ (muZero < -(right - left) ∨ muZero > 0))
        let diverged := absQ fZero > absQ fCur
        let cands :=
          if diverged then
            oppositeProbe col0p diagp shift a b fZero lc1 rc1 4 1
          else (lc1, rc1)
        if outOfBounds ∨ diverged then ⟨true, muZero, cands.1, cands.2⟩
        else secantGo col0p diagp shift eps left right fuel
          muZero muCur fZero fCur cands.1 cands.2

/-- The secant closure: initial swap, same-sign candidate setup, then
the interpolation loop. -/
def secant (col0p diagp : List ℚ) (shift eps left right : ℚ) (fuel : ℕ)
    (muCur0 muPrev0 fCur0 fPrev0 : ℚ) : SecantOut :=
  let sw :=
    if absQ fPrev0 < absQ fCur0 then (muPrev0, muCur0, fPrev0, fCur0)
    else (muCur0, muPrev0, fCur0, fPrev0)
  let muCur := sw.1
  let muPrev := sw.2.1
  let fCur := sw.2.2.1
  let fPrev := sw.2.2.2
  let sameSign := fPrev * fCur > 0
  let mm := if muCur < muPrev then (muCur, muPrev) else (muPrev, muCur)
  let lc := if sameSign then none else some mm.1
  let rc := if sameSign then none else some mm.2
  secantGo col0p diagp shift eps left right fuel muCur muPrev fCur fPrev lc rc

/-- The fallback bisection loop run when the secant bailed out. -/
def fallbackBisection (col0p diagp : List ℚ) (shift eps : ℚ) :
    ℕ → ℚ → ℚ → ℚ × ℚ
  | 0, L, R => (L, R)
  | fuel + 1, L, R =>
    if R - L > 2 * eps * maxQ (absQ L) (absQ R) then
      let mid := (L + R) * (1 / 2)
      let fMid := secular_eq mid col0p diagp shift
      if fMid = 0 then (L, R)
      else if fMid > 0 then fallbackBisection col0p diagp shift eps fuel L mid
      else fallbackBisection col0p diagp shift eps fuel mid R
    else (L, R)

/-- Result of the per-index secular solve: the root decomposition
`s = shift + mu` plus diagnostics mirroring the control flow (number
of pre-solve bisection steps, whether the pre-solve found an exact
root, whether the trivial case fired). -/
structure SvkOut where
  s : ℚ
  shift : ℚ
  mu : ℚ
  presolveSteps : ℕ
  presolveEarly : Bool
  trivialCase : Bool
deriving Repr, DecidableEq

/-- The full per-index body of `compute_singular_values_generic`:
pre-solve phase, secant refinement with candidate clamping, fallback
bisection when the secant bailed. -/
def compute_singular_value_k (sq : ℚ → ℚ) (diag col0 diagp col0p : List ℚ)
    (eps : ℚ) (fuelSecant fuelBis : ℕ) (k : ℕ) : SvkOut :=
  match presolvePhase sq diag col0 diagp col0p eps k with
  | .trivialCase s => ⟨s, s, 0, 0, false, true⟩
  | .early shift mid steps => ⟨shift + mid, shift, mid, steps, true, false⟩
  | .toSecant shift left right st steps =>
    let args :=
      if st.L = 0 then (st.R + st.R, st.R, st.fPrev, st.fR)
      else if st.R = 0 then (st.L + st.L, st.L, st.fPrev, st.fL)
      else (st.L, st.R, st.fL, st.fR)
    let so := secant col0p diagp shift eps left right fuelSecant
      args.1 args.2.1 args.2.2.1 args.2.2.2
    let LR :=
      match so.leftCand, so.rightCand with
      | some lcv, some rcv =>
        if lcv < rcv then
          (if lcv > st.L then lcv else st.L, if rcv < st.R then rcv else st.R)
        else (st.L, st.R)
      | _, _ => (st.L, st.R)
    let muCur :=
      if so.useBisection then
        let f := fallbackBisection col0p diagp shift eps fuelBis LR.1 LR.2
        (f.1 + f.2) * (1 / 2)
      else so.muCur
    ⟨shift + muCur, shift, muCur, steps, false, false⟩

/-- Function `compute_singular_values` over all indices: the `(shift, mu, s)`
triple for each `k ∈ [0, n)`. -/
def compute_singular_values (sq : ℚ → ℚ) (diag col0 diagp col0p : List ℚ)
    (eps : ℚ) (fuelSecant fuelBis : ℕ) : List SvkOut :=
  (List.range diag.length).map
    (compute_singular_value_k sq diag col0 diagp col0p eps fuelSecant fuelBis)

/-! ## Entry point (`compute_bidiag_real_svd`) and the
divide-and-conquer early exit (`bidiag_svd_impl`) -/

/-- Matrix entry read on a row-major list matrix. -/
def entryQ (m : List (List ℚ)) (i j : ℕ) : ℚ := getQ (m.getD i []) j

/-- Matrix entry write on a row-major list matrix (`mat.write(i, j, x)`). -/
def setEntry (m : List (List ℚ)) (i j : ℕ) (x : ℚ) : List (List ℚ) :=
  m.set i ((m.getD i []).set j x)

/-- Operation `mat.fill_zero()`: zero every entry, preserving the shape. -/
def fillZero (m : List (List ℚ)) : List (List ℚ) := m.map fun r => r.map fun _ => 0

/-- Operation `mat.diagonal_mut().column_vector_mut().fill(one)`: write `1` at
`(t, t)` for every `t` up to the number of rows (writes past a row's
width are vacuous, matching the `min(nrows, ncols)` diagonal length
for the square matrices this is called on). -/
def fillDiagOnes (m : List (List ℚ)) : List (List ℚ) :=
  (List.range m.length).foldl (fun acc t => setEntry acc t t 1) m

/-- The `n×n` dense copy of the bidiagonal built by the Jacobi branch
of `compute_bidiag_real_svd`
(`s.write(i, i, diag[i]); if i + 1 < n { s.write(i + 1, i, subdiag[i]) }`). -/
def bidiag_to_dense (diag subdiag : List ℚ) : List (List ℚ) :=
  let n := diag.length
  (List.range n).map fun i =>
    (List.range n).map fun j =>
      if i = j then getQ diag i
      else if i = j + 1 then getQ subdiag j
      else 0

/-- Observable routing decision of `compute_bidiag_real_svd`:
which backend runs, with the dense copy for the Jacobi branch and the
temporary-`U` allocation for the divide-and-conquer branch. -/
inductive SvdRoute where
  | jacobi (s : List (List ℚ))
  | qr
  | divideConquer (allocTempU : Option (ℕ × ℕ)) (fillU : Bool)
deriving Repr, DecidableEq

/-- The dispatch of `compute_bidiag_real_svd` on `n = diag.len()`:
Jacobi when `n ≤ jacobi_fallback_threshold` (on the dense bidiagonal
copy), implicit QR when `n ≤ bidiag_qr_fallback_threshold`, otherwise
divide-and-conquer, allocating a `2×(n+1)` temporary `U` (and passing
`fill_u = false`) exactly when the caller passed no `U`. -/
def compute_bidiag_real_svd_route (jt qt : ℕ) (uGiven : Bool)
    (diag subdiag : List ℚ) : SvdRoute :=
  let n := diag.length
  if n ≤ jt then .jacobi (bidiag_to_dense diag subdiag)
  else if n ≤ qt then .qr
  else
    match uGiven with
    | true => .divideConquer none true
    | false => .divideConquer (some (2, n + 1)) false

/-- Result record for `bidiag_svd_impl` (row-major matrices). -/
structure BidiagImplOut where
  diag : List ℚ
  subdiag : List ℚ
  u : List (List ℚ)
  v : Option (List (List ℚ))

/-- The entry of `bidiag_svd_impl`: compute the maximum absolute value
of `diag` and `subdiag`; when it is zero, return early with `u` zeroed
then set to the identity (full storage) or to the
`u[0,0] = 1, u[1,n] = 1` pattern (compact 2-row storage) and `v` set
to the identity; otherwise divide both arrays by the maximum and
continue with the remainder of the algorithm, abstracted here as
`rest` (the early-exit claim holds for every continuation). -/
def bidiag_svd_impl_entry
    (rest : List ℚ → List ℚ → List (List ℚ) → Option (List (List ℚ)) → BidiagImplOut)
    (diag subdiag : List ℚ) (u : List (List ℚ)) (v : Option (List (List ℚ))) :
    BidiagImplOut :=
  let n := diag.length
  let maxVal := maxAbs (diag ++ subdiag)
  if maxVal = 0 then
    let u0 := fillZero u
    let u1 :=
      if u0.length = n + 1 then fillDiagOnes u0
      else setEntry (setEntry u0 0 0 1) 1 n 1
    let v1 := v.map fun vm => fillDiagOnes (fillZero vm)
    { diag := diag, subdiag := subdiag, u := u1, v := v1 }
  else
    rest (diag.map (· / maxVal)) (subdiag.map (· / maxVal)) u v

/-- Number of pre-solve bisection steps recorded in the per-index
phase result. -/
def presolveStepsOf : PresolvePhaseOut → ℕ
  | .trivialCase _ => 0
  | .early _ _ steps => steps
  | .toSecant _ _ _ _ steps => steps

/-! ## Helper lemmas -/

theorem getQ_set_ne (l : List ℚ) (i j : ℕ) (x : ℚ) (h : i ≠ j) :
    getQ (setQ l i x) j = getQ l j := by
  simp [getQ, setQ, List.getD_eq_getElem?_getD, List.getElem?_set_ne h]

theorem getQ_set_self (l : List ℚ) (i : ℕ) (x : ℚ) (h : i < l.length) :
    getQ (setQ l i x) i = x := by
  simp [getQ, setQ, List.getD_eq_getElem?_getD, List.getElem?_set_self, h]

theorem setQ_length (l : List ℚ) (i : ℕ) (x : ℚ) :
    (setQ l i x).length = l.length := by
  simp [setQ]

theorem swapQ_length (l : List ℚ) (i j : ℕ) :
    (swapQ l i j).length = l.length := by
  simp [swapQ]

theorem getD_range_map {α : Type} (d : α) (f : ℕ → α) (m i : ℕ) (h : i < m) :
    ((List.range m).map f).getD i d = f i := by
  simp [List.getD_eq_getElem?_getD, List.getElem?_map, List.getElem?_range, h]

theorem getQ_range_map (f : ℕ → ℚ) (m i : ℕ) (h : i < m) :
    getQ ((List.range m).map f) i = f i := by
  simp [getQ, List.getD_eq_getElem?_getD, List.getElem?_map, List.getElem?_range, h]

theorem ratSqrtPos_zero : ratSqrtPos 0 = 0 := by
  norm_num [ratSqrtPos]

theorem ratSqrt_nonneg (x : ℚ) : 0 ≤ ratSqrt x := by
  unfold ratSqrt
  split
  · positivity
  · exact le_rfl

theorem ratSqrtPos_pos : ∀ x : ℚ, 0 < x → 0 < ratSqrtPos x := by
  intro x hx
  unfold ratSqrtPos
  rw [if_neg (not_le.mpr hx)]
  split
  · norm_num
  · next hne => exact lt_of_le_of_ne (ratSqrt_nonneg x) (Ne.symm hne)

/-! ## C2: entry-point dispatch -/

/-- C2: `compute_bidiag_real_svd` dispatches on `n = len(diag)`:
`n ≤ jacobi_fallback_threshold` solves by Jacobi SVD on an `n×n`
dense copy of the bidiagonal (whose entries are the claimed ones);
otherwise `n ≤ bidiag_qr_fallback_threshold` routes to the
implicit-QR algorithm; otherwise to divide-and-conquer, which
allocates a `2×(n+1)` compact `U` exactly when the caller passes no
`U`. -/
theorem compute_bidiag_real_svd_dispatch (jt qt : ℕ) (uGiven : Bool)
    (diag subdiag : List ℚ) :
    (diag.length ≤ jt →
      compute_bidiag_real_svd_route jt qt uGiven diag subdiag =
        .jacobi (bidiag_to_dense diag subdiag) ∧
      ∀ i j, i < diag.length → j < diag.length →
        entryQ (bidiag_to_dense diag subdiag) i j =
          (if i = j then getQ diag i
           else if i = j + 1 then getQ subdiag j else 0)) ∧
    (jt < diag.length → diag.length ≤ qt →
      compute_bidiag_real_svd_route jt qt uGiven diag subdiag = .qr) ∧
    (jt < diag.length → qt < diag.length →
      compute_bidiag_real_svd_route jt qt uGiven diag subdiag =
        .divideConquer (if uGiven then none else some (2, diag.length + 1))
          uGiven) := by
  refine ⟨fun h => ⟨?_, ?_⟩, fun h1 h2 => ?_, fun h1 h2 => ?_⟩
  · simp [compute_bidiag_real_svd_route, h]
  · intro i j hi hj
    simp only [entryQ, bidiag_to_dense]
    rw [getD_range_map _ _ _ _ hi, getQ_range_map _ _ _ hj]
  · simp [compute_bidiag_real_svd_route, Nat.not_le.mpr h1, h2]
  · cases uGiven <;>
      simp [compute_bidiag_real_svd_route, Nat.not_le.mpr h1, Nat.not_le.mpr h2]

/-- Witness for the dispatch theorem at concrete inputs exercising all
three arms. -/
theorem compute_bidiag_real_svd_dispatch_witness :
    (([(1 : ℚ)].length ≤ 3 ∧
      compute_bidiag_real_svd_route 3 5 true [(1 : ℚ)] [0] =
        .jacobi (bidiag_to_dense [(1 : ℚ)] [0])) ∧
     (3 < ([(1 : ℚ), 2, 3, 4].length) ∧ [(1 : ℚ), 2, 3, 4].length ≤ 5 ∧
      compute_bidiag_real_svd_route 3 5 true [(1 : ℚ), 2, 3, 4] [0, 0, 0, 0] = .qr) ∧
     (compute_bidiag_real_svd_route 1 2 false [(1 : ℚ), 2, 3] [0, 0, 0] =
        .divideConquer (some (2, 4)) false)) := by
  refine ⟨⟨by decide, ?_⟩, ⟨by decide, by decide, ?_⟩, ?_⟩
  · exact ((compute_bidiag_real_svd_dispatch 3 5 true [(1 : ℚ)] [0]).1 (by decide)).1
  · exact (compute_bidiag_real_svd_dispatch 3 5 true [(1 : ℚ), 2, 3, 4]
      [0, 0, 0, 0]).2.1 (by decide) (by decide)
  · have h := (compute_bidiag_real_svd_dispatch 1 2 false [(1 : ℚ), 2, 3]
      [0, 0, 0]).2.2 (by decide) (by decide)
    simpa using h

/-! ## C3: QR sweep cap -/

theorem qrLoop_sweeps_le (sq : ℚ → ℚ) (eps czt : ℚ) :
    ∀ (fuel : ℕ) (st : QrState), (qrLoop sq eps czt fuel st).2 ≤ fuel := by
  intro fuel
  induction fuel with
  | zero => intro st; simp [qrLoop]
  | succ m ih =>
    intro st
    simp only [qrLoop]
    cases h : qrSweep sq eps czt st with
    | brk st1 => simp
    | cont st1 => simpa using Nat.succ_le_succ (ih st1)

/-- C3: the outer iteration of `bidiag_svd_qr_algorithm_impl` is
entered at most `30·n²` times where `n = len(diag)`; the function is
total and returns (with whatever state the loop reached). -/
theorem qr_iteration_cap (sq : ℚ → ℚ) (epsilon czt : ℚ)
    (diag subdiag : List ℚ) (wantU wantV : Bool) :
    (bidiag_svd_qr_algorithm_impl sq epsilon czt diag subdiag wantU wantV).2 ≤
      30 * diag.length * diag.length := by
  unfold bidiag_svd_qr_algorithm_impl
  norm_num
  exact qrLoop_sweeps_le sq (qrScaledEps epsilon) czt _ _

/-! ## C4: the off-diagonal deflation criterion -/

/-- C4 counterexample: with caller epsilon `1/1000`, the first sweep's
deflation pass zeroes `subdiag[0] = 1/10` on `diag = [1, 1]`, although
the criterion stated with the caller's epsilon
(`|subdiag[0]| ≤ ε·(|diag[0]|+|diag[1]|)` or `|subdiag[0]| ≤ ε`)
does not hold; the pass actually runs with `128·ε`. -/
theorem qr_deflation_criterion_counterexample :
    getQ (deflate_subdiag (qrScaledEps (1 / 1000)) [1, 1] [1 / 10, 0]) 0 = 0 ∧
    ¬(absQ (getQ [(1 : ℚ) / 10, 0] 0) ≤
        (1 / 1000) * (absQ (getQ [(1 : ℚ), 1] 0) + absQ (getQ [(1 : ℚ), 1] 1)) ∨
      absQ (getQ [(1 : ℚ) / 10, 0] 0) ≤ (1 / 1000)) := by
  norm_num [deflate_subdiag, qrScaledEps, getQ, absQ, List.range_succ]

/-- C4 (amended): in each outer iteration of the implicit-QR
algorithm, `subdiag[i]` is set to zero exactly when
`|subdiag[i]| ≤ 128·ε·(|diag[i]| + |diag[i+1]|)` or
`|subdiag[i]| ≤ 128·ε`, where `ε` is the caller's epsilon: the loop
runs with the internally scaled epsilon `qrScaledEps ε = 128·ε`. -/
theorem qr_deflation_criterion (epsilon : ℚ) (heps : 0 < epsilon)
    (diag subdiag : List ℚ) (i : ℕ)
    (hi : i + 1 < diag.length) (hil : i < subdiag.length) :
    getQ (deflate_subdiag (qrScaledEps epsilon) diag subdiag) i = 0 ↔
      (absQ (getQ subdiag i) ≤
          128 * epsilon * (absQ (getQ diag i) + absQ (getQ diag (i + 1))) ∨
        absQ (getQ subdiag i) ≤ 128 * epsilon) := by
  unfold deflate_subdiag qrScaledEps
  rw [getQ_range_map _ _ _ hil]
  have hi1 : i < diag.length - 1 := by omega
  constructor
  · intro h
    by_cases hc :
        absQ (getQ subdiag i) ≤
            128 * epsilon * (absQ (getQ diag i) + absQ (getQ diag (i + 1))) ∨
          absQ (getQ subdiag i) ≤ 128 * epsilon
    · exact hc
    · rw [if_neg (by tauto)] at h
      right
      rw [h]
      show absQ 0 ≤ 128 * epsilon
      simp [absQ]
      positivity
  · intro h
    rw [if_pos ⟨hi1, h⟩]

/-- Witness for the amended deflation criterion. -/
theorem qr_deflation_criterion_witness :
    ((0 : ℚ) < 1 ∧ (0 : ℕ) + 1 < ([(1 : ℚ), 1]).length ∧
      (0 : ℕ) < ([(1 : ℚ) / 2, 0]).length) ∧
    (getQ (deflate_subdiag (qrScaledEps 1) [1, 1] [1 / 2, 0]) 0 = 0 ↔
      (absQ (getQ [(1 : ℚ) / 2, 0] 0) ≤
          128 * 1 * (absQ (getQ [(1 : ℚ), 1] 0) + absQ (getQ [(1 : ℚ), 1] 1)) ∨
        absQ (getQ [(1 : ℚ) / 2, 0] 0) ≤ 128 * 1)) :=
  ⟨⟨by norm_num, by decide, by decide⟩,
    qr_deflation_criterion 1 (by norm_num) [1, 1] [1 / 2, 0] 0 (by decide) (by decide)⟩

/-! ## C5: the `max_val` normalization is a no-op -/

/-- C5: in `bidiag_svd_qr_algorithm_impl`, the computed `max_val` is
immediately replaced by `1` before any use, so the entry division and
exit multiplication leave every value unchanged and the algorithm
equals the same algorithm with the normalization and denormalization
steps removed. -/
theorem qr_normalization_noop (sq : ℚ → ℚ) (epsilon czt : ℚ)
    (diag subdiag : List ℚ) (wantU wantV : Bool) :
    bidiag_svd_qr_algorithm_impl sq epsilon czt diag subdiag wantU wantV =
      bidiag_svd_qr_algorithm_noNorm sq epsilon czt diag subdiag wantU wantV := by
  unfold bidiag_svd_qr_algorithm_impl bidiag_svd_qr_algorithm_noNorm
  norm_num

/-! ## C7: trivial cases of the secular solver -/

/-- C7: for every index `k` with `col0[k] = 0`, and for every `k` when
only one active index exists (`actual_n = 1`), the secular solver
returns `s_k = col0[0]` if `k = 0` and `s_k = diag[k]` otherwise, with
`shift_k = s_k` and `μ_k = 0`, performing no pre-solve or secant
iteration (the diagnostics record zero steps and the trivial-case
path). -/
theorem secular_trivial_case (sq : ℚ → ℚ) (diag col0 diagp col0p : List ℚ)
    (eps : ℚ) (fs fb k : ℕ)
    (h : getQ col0 k = 0 ∨ actualN col0 diag.length = 1) :
    compute_singular_value_k sq diag col0 diagp col0p eps fs fb k =
      ⟨(if k = 0 then getQ col0 0 else getQ diag k),
       (if k = 0 then getQ col0 0 else getQ diag k), 0, 0, false, true⟩ := by
  unfold compute_singular_value_k presolvePhase
  rw [if_pos h]

/-- Witness for the trivial-case theorem. -/
theorem secular_trivial_case_witness :
    (getQ [(1 : ℚ), 0] 1 = 0 ∨ actualN [(1 : ℚ), 0] ([(1 : ℚ), 2].length) = 1) ∧
    compute_singular_value_k ratSqrt [1, 2] [1, 0] [1] [1] 1 5 5 1 =
      ⟨2, 2, 0, 0, false, true⟩ := by
  have h : getQ [(1 : ℚ), 0] 1 = 0 ∨ actualN [(1 : ℚ), 0] ([(1 : ℚ), 2].length) = 1 :=
    Or.inl (by norm_num [getQ])
  refine ⟨h, ?_⟩
  rw [secular_trivial_case ratSqrt [1, 2] [1, 0] [1] [1] 1 5 5 1 h]
  norm_num [getQ]

/-! ## C6: the pre-solve bisection loop -/

theorem presolveLoop_steps_le (sq : ℚ → ℚ) (col0p diagp : List ℚ)
    (shift eps : ℚ) :
    ∀ (fuel count : ℕ) (st : PresolveSt), count ≤ 4 →
      (presolveLoop sq col0p diagp shift eps fuel count st).2 ≤ 5 - count := by
  intro fuel
  induction fuel with
  | zero => intro count st h; simp [presolveLoop]
  | succ f ih =>
    intro count st h
    simp only [presolveLoop]
    split
    · split
      · exact show ((PresolveRes.early (presolveMid sq st.L st.R), 1) :
            PresolveRes × ℕ).2 ≤ 5 - count from by
          dsimp only
          omega
      · split
        · dsimp only
          omega
        · next hc =>
          have h4 : ∀ s : PresolveSt,
              (presolveLoop sq col0p diagp shift eps f (count + 1) s).2 ≤
                5 - (count + 1) :=
            fun s => ih (count + 1) s (by omega)
          dsimp only
          exact le_trans (Nat.succ_le_succ (h4 _)) (by omega)
    · simp

theorem presolveLoop_early_root (sq : ℚ → ℚ) (col0p diagp : List ℚ)
    (shift eps : ℚ) :
    ∀ (fuel count : ℕ) (st : PresolveSt) (mid : ℚ) (steps : ℕ),
      presolveLoop sq col0p diagp shift eps fuel count st = (.early mid, steps) →
        secular_eq mid col0p diagp shift = 0 := by
  intro fuel
  induction fuel with
  | zero => intro count st mid steps h; simp [presolveLoop] at h
  | succ f ih =>
    intro count st mid steps h
    simp only [presolveLoop] at h
    split at h
    · split at h
      · next hzero =>
        simp only [Prod.mk.injEq, PresolveRes.early.injEq] at h
        obtain ⟨h1, -⟩ := h
        subst h1
        exact hzero
      · split at h
        · simp at h
        · simp only [Prod.mk.injEq] at h
          obtain ⟨h1, h2⟩ := h
          exact ih (count + 1) _ mid _ (by rw [← h1])
    · simp at h

theorem presolveStepsOf_finish (shift left right : ℚ) (r : PresolveRes × ℕ) :
    presolveStepsOf (presolveFinish shift left right r) = r.2 := by
  rcases r with ⟨res, steps⟩
  cases res <;> rfl

theorem presolveFinish_early (sh l r : ℚ) (x : PresolveRes × ℕ)
    (sh' mid : ℚ) (steps : ℕ)
    (h : presolveFinish sh l r x = .early sh' mid steps) :
    sh' = sh ∧ x = (.early mid, steps) := by
  rcases x with ⟨res, st⟩
  cases res with
  | early m =>
    simp only [presolveFinish, PresolvePhaseOut.early.injEq] at h
    obtain ⟨h1, h2, h3⟩ := h
    exact ⟨h1.symm, by rw [h2, h3]⟩
  | done s => simp [presolveFinish] at h

/-- C6 (amended): for every index `k` handled by the secular solver,
the pre-solve bisection loop performs at most five bisection steps
(not four: the counter check `iteration_count == 4` sits after the
update, so a fifth step executes before the break); each step chooses
the sign-carrying geometric midpoint `±(√|L|·√|R|)` when both shifted
endpoints are same-signed and the arithmetic midpoint when one of them
is zero; and on an exact zero of the secular function at the midpoint
it exits early recording `σ_k = shift + midpoint`. -/
theorem secular_presolve (sq : ℚ → ℚ) (hsq0 : sq 0 = 0)
    (hsqPos : ∀ x : ℚ, 0 < x → 0 < sq x)
    (diag col0 diagp col0p : List ℚ) (eps : ℚ) (fs fb k : ℕ) :
    presolveStepsOf (presolvePhase sq diag col0 diagp col0p eps k) ≤ 5 ∧
    (∀ L R : ℚ, (0 < L ∧ 0 < R) ∨ (L < 0 ∧ R < 0) →
      presolveMid sq L R =
        (if L < 0 then -(sq (absQ L) * sq (absQ R))
         else sq (absQ L) * sq (absQ R))) ∧
    (∀ L R : ℚ, L = 0 ∨ R = 0 → presolveMid sq L R = (L + R) * (1 / 2)) ∧
    (∀ shift mid steps,
      presolvePhase sq diag col0 diagp col0p eps k = .early shift mid steps →
        secular_eq mid col0p diagp shift = 0 ∧
        compute_singular_value_k sq diag col0 diagp col0p eps fs fb k =
          ⟨shift + mid, shift, mid, steps, true, false⟩) := by
  refine ⟨?_, ?_, ?_, ?_⟩
  · by_cases htriv : getQ col0 k = 0 ∨ actualN col0 diag.length = 1
    · unfold presolvePhase
      rw [if_pos htriv]
      simp [presolveStepsOf]
    · unfold presolvePhase
      rw [if_neg htriv, presolveStepsOf_finish]
      exact presolveLoop_steps_le sq col0p diagp _ eps 6 0 _ (by omega)
  · intro L R h
    unfold presolveMid
    have habs : ∀ x : ℚ, x ≠ 0 → 0 < sq (absQ x) := by
      intro x hx
      apply hsqPos
      unfold absQ
      rcases lt_trichotomy x 0 with h1 | h1 | h1
      · rw [if_pos h1]; linarith
      · exact absurd h1 hx
      · rw [if_neg (by linarith)]; exact h1
    rcases h with ⟨hL, hR⟩ | ⟨hL, hR⟩
    · have hpos : 0 < sq (absQ L) * sq (absQ R) :=
        mul_pos (habs L (ne_of_gt hL)) (habs R (ne_of_gt hR))
      simp only [if_neg (not_lt.mpr hL.le)]
      rw [if_neg (ne_of_gt hpos)]
    · have hpos : 0 < sq (absQ L) * sq (absQ R) :=
        mul_pos (habs L (ne_of_lt hL)) (habs R (ne_of_lt hR))
      simp only [if_pos hL]
      rw [if_neg (show ¬(-(sq (absQ L) * sq (absQ R)) = 0) by
        intro hc
        exact absurd (neg_eq_zero.mp hc) (ne_of_gt hpos))]
  · intro L R h
    unfold presolveMid
    have habs0 : absQ 0 = 0 := by norm_num [absQ]
    rcases h with h | h
    · subst h
      rw [habs0, hsq0, zero_mul]
      simp
    · subst h
      rw [habs0, hsq0, mul_zero]
      simp
  · intro shift mid steps heq
    constructor
    · by_cases htriv : getQ col0 k = 0 ∨ actualN col0 diag.length = 1
      · unfold presolvePhase at heq
        rw [if_pos htriv] at heq
        simp at heq
      · unfold presolvePhase at heq
        rw [if_neg htriv] at heq
        obtain ⟨h1, h2⟩ := presolveFinish_early _ _ _ _ _ _ _ heq
        subst h1
        exact presolveLoop_early_root sq col0p diagp _ eps 6 0 _ mid steps h2
    · unfold compute_singular_value_k
      rw [heq]

set_option maxHeartbeats 4000000 in
theorem c6_presolve_loop_eval (fL fR fP : ℚ) :
    presolveLoop ratSqrt [1 / 2 ^ 95, 2 ^ 33] [0, 2 ^ 33] 0 (1 / 2 ^ 100) 6 0
      ⟨1 / 2 ^ 96, fL, 1 / 2 ^ 32, fR, fP⟩ =
    (.done ⟨1 / 2 ^ 96, fL, 1 / 2 ^ 94,
      secular_eq (1 / 2 ^ 94) [1 / 2 ^ 95, 2 ^ 33] [0, 2 ^ 33] 0,
      secular_eq (1 / 2 ^ 92) [1 / 2 ^ 95, 2 ^ 33] [0, 2 ^ 33] 0⟩, 5) := by
  norm_num [presolveLoop, presolveMid, ratSqrt, absQ, maxQ, secular_eq]

set_option maxHeartbeats 4000000 in
theorem c6_phase_prefix_eval :
    presolvePhase ratSqrt [0, 2 ^ 33] [1 / 2 ^ 95, 2 ^ 33] [0, 2 ^ 33]
        [1 / 2 ^ 95, 2 ^ 33] (1 / 2 ^ 100) 0 =
    presolveFinish 0 0 (2 ^ 33)
      (presolveLoop ratSqrt [1 / 2 ^ 95, 2 ^ 33] [0, 2 ^ 33] 0 (1 / 2 ^ 100) 6 0
        ⟨1 / 2 ^ 96, secular_eq_fast1 (1 / 2 ^ 96) [1 / 2 ^ 95, 2 ^ 33] [0, 2 ^ 33] 0,
         1 / 2 ^ 32, secular_eq_fast1 (1 / 2 ^ 32) [1 / 2 ^ 95, 2 ^ 33] [0, 2 ^ 33] 0,
         secular_eq_fast1 (2 ^ 32) [1 / 2 ^ 95, 2 ^ 33] [0, 2 ^ 33] 0⟩) := by
  norm_num [presolvePhase, actualN, findL, getQ, secular_eq_fast1, absQ]

/-- C6 counterexample: on the secular-solver input
`diag = [0, 2³³]`, `col0 = [2⁻⁹⁵, 2³³]`, `ε = 2⁻¹⁰⁰`, index `k = 0`
(every square root taken by the run lands on a perfect square, so the
exact-rational run agrees with the real-number semantics), the
pre-solve bisection loop performs five bisection steps, not at most
four: the `iteration_count == 4` test sits after the bracket update,
so a fifth midpoint is evaluated before the break. -/
theorem secular_presolve_counterexample :
    presolveStepsOf (presolvePhase ratSqrt [0, 2 ^ 33] [1 / 2 ^ 95, 2 ^ 33]
      [0, 2 ^ 33] [1 / 2 ^ 95, 2 ^ 33] (1 / 2 ^ 100) 0) = 5 ∧
    ¬presolveStepsOf (presolvePhase ratSqrt [0, 2 ^ 33] [1 / 2 ^ 95, 2 ^ 33]
      [0, 2 ^ 33] [1 / 2 ^ 95, 2 ^ 33] (1 / 2 ^ 100) 0) ≤ 4 := by
  have h : presolveStepsOf (presolvePhase ratSqrt [0, 2 ^ 33]
      [1 / 2 ^ 95, 2 ^ 33] [0, 2 ^ 33] [1 / 2 ^ 95, 2 ^ 33] (1 / 2 ^ 100) 0) = 5 := by
    rw [c6_phase_prefix_eval, c6_presolve_loop_eval, presolveStepsOf_finish]
  exact ⟨h, by rw [h]; omega⟩

/-- Witness for the amended pre-solve theorem, at `sq := ratSqrtPos`
(which satisfies the two square-root laws) and a concrete input. -/
theorem secular_presolve_witness :
    presolveStepsOf (presolvePhase ratSqrtPos [1, 2] [1, 1] [1, 2] [1, 1] 1 0) ≤ 5 ∧
    (∀ L R : ℚ, (0 < L ∧ 0 < R) ∨ (L < 0 ∧ R < 0) →
      presolveMid ratSqrtPos L R =
        (if L < 0 then -(ratSqrtPos (absQ L) * ratSqrtPos (absQ R))
         else ratSqrtPos (absQ L) * ratSqrtPos (absQ R))) ∧
    (∀ L R : ℚ, L = 0 ∨ R = 0 →
      presolveMid ratSqrtPos L R = (L + R) * (1 / 2)) ∧
    (∀ shift mid steps,
      presolvePhase ratSqrtPos [1, 2] [1, 1] [1, 2] [1, 1] 1 0 =
          .early shift mid steps →
        secular_eq mid [1, 1] [1, 2] shift = 0 ∧
        compute_singular_value_k ratSqrtPos [1, 2] [1, 1] [1, 2] [1, 1] 1 3 3 0 =
          ⟨shift + mid, shift, mid, steps, true, false⟩) :=
  secular_presolve ratSqrtPos ratSqrtPos_zero ratSqrtPos_pos
    [1, 2] [1, 1] [1, 2] [1, 1] 1 3 3 0

/-! ## C8, C9: deflation -/

theorem foldl_invariant {α β : Type _} (P : β → Prop) (f : β → α → β) :
    ∀ (l : List α) (b : β), P b → (∀ b a, P b → P (f b a)) → P (l.foldl f b) := by
  intro l
  induction l with
  | nil => intro b hb _; exact hb
  | cons a t ih => intro b hb hf; exact ih _ (hf _ _ hb) hf

theorem getQ_set_self_total (l : List ℚ) (i : ℕ) (x : ℚ) :
    getQ (setQ l i x) i = if i < l.length then x else getQ l i := by
  split
  · next h => exact getQ_set_self l i x h
  · next h =>
    unfold getQ setQ
    rw [List.set_eq_of_length_le (by omega)]

theorem deflate42_length (strict : ℚ) (col0 : List ℚ) :
    (deflate42 strict col0).length = col0.length := by
  cases col0 <;> simp [deflate42]

theorem deflation43_u (sq : ℚ → ℚ) (d c : List ℚ) (u : List (List ℚ)) (i : ℕ) :
    (deflation43 sq d c u i).2.2.1 = u := by
  simp only [deflation43]
  split <;> rfl

theorem deflation43_lengths (sq : ℚ → ℚ) (d c : List ℚ) (u : List (List ℚ))
    (i : ℕ) :
    (deflation43 sq d c u i).1.length = d.length ∧
    (deflation43 sq d c u i).2.1.length = c.length := by
  simp only [deflation43]
  split <;> simp [setQ]

theorem deflate43Pass_u (sq : ℚ → ℚ) (coarse : ℚ) (n : ℕ)
    (diag col0 : List ℚ) (u : List (List ℚ)) :
    (deflate43Pass sq coarse n diag col0 u).2.2.1 = u := by
  unfold deflate43Pass
  apply foldl_invariant
    (fun acc : List ℚ × List ℚ × List (List ℚ) × List (Rot × ℕ) => acc.2.2.1 = u)
  · rfl
  · intro b a hb
    rcases b with ⟨d, c, uu, rots⟩
    dsimp only at hb ⊢
    split
    · rcases hopt : (deflation43 sq d c uu a).2.2.2 with _ | rot <;>
        dsimp only <;> rw [deflation43_u, hb]
    · exact hb

theorem deflate43Pass_lengths (sq : ℚ → ℚ) (coarse : ℚ) (n : ℕ)
    (diag col0 : List ℚ) (u : List (List ℚ)) :
    (deflate43Pass sq coarse n diag col0 u).1.length = diag.length ∧
    (deflate43Pass sq coarse n diag col0 u).2.1.length = col0.length := by
  unfold deflate43Pass
  apply foldl_invariant
    (fun acc : List ℚ × List ℚ × List (List ℚ) × List (Rot × ℕ) =>
      acc.1.length = diag.length ∧ acc.2.1.length = col0.length)
  · exact ⟨rfl, rfl⟩
  · intro b a hb
    rcases b with ⟨d, c, uu, rots⟩
    dsimp only at hb ⊢
    split
    · rcases hopt : (deflation43 sq d c uu a).2.2.2 with _ | rot <;>
        dsimp only <;>
        exact ⟨((deflation43_lengths sq d c uu a).1).trans hb.1,
          ((deflation43_lengths sq d c uu a).2).trans hb.2⟩
    · exact hb

theorem deflateSortApply_lengths (total : Bool) (n : ℕ) (perm : List ℕ)
    (diag col0 : List ℚ) :
    (deflateSortApply total n perm diag col0).diag.length = diag.length ∧
    (deflateSortApply total n perm diag col0).col0.length = col0.length := by
  unfold deflateSortApply
  apply foldl_invariant
    (fun st : SortApplySt =>
      st.diag.length = diag.length ∧ st.col0.length = col0.length)
  · exact ⟨rfl, rfl⟩
  · intro b a hb
    refine ⟨?_, ?_⟩
    · dsimp only
      rw [swapQ_length]
      exact hb.1
    · dsimp only
      rw [apply_ite List.length, swapQ_length, ite_self]
      exact hb.2

theorem deflateSortApply_col0_length (total : Bool) (n : ℕ) (perm : List ℕ)
    (diag col0 : List ℚ) :
    (deflateSortApply total n perm diag col0).col0.length = col0.length :=
  (deflateSortApply_lengths total n perm diag col0).2

theorem deflation44_preserve0 (sq : ℚ → ℚ) (diag col0 : List ℚ) (i j : ℕ)
    (hi : i ≠ 0) (hj : j ≠ 0) :
    getQ (deflation44 sq diag col0 i j).1 0 = getQ diag 0 ∧
    getQ (deflation44 sq diag col0 i j).2.1 0 = getQ col0 0 := by
  simp only [deflation44]
  split
  · exact ⟨getQ_set_ne _ _ _ _ hi, rfl⟩
  · refine ⟨getQ_set_ne _ _ _ _ hj, ?_⟩
    rw [getQ_set_ne _ _ _ _ hj, getQ_set_ne _ _ _ _ hi]

theorem loop44_preserve0 (sq : ℚ → ℚ) (strict : ℚ) :
    ∀ (i : ℕ) (diag col0 : List ℚ) (rots : List (Rot × ℕ)),
      getQ (loop44 sq strict diag col0 rots i).1 0 = getQ diag 0 ∧
      getQ (loop44 sq strict diag col0 rots i).2.1 0 = getQ col0 0 := by
  intro i
  induction i using Nat.strong_induction_on with
  | _ i ih =>
    match i with
    | 0 => intro diag col0 rots; exact ⟨rfl, rfl⟩
    | 1 => intro diag col0 rots; exact ⟨rfl, rfl⟩
    | i + 2 =>
      intro diag col0 rots
      simp only [loop44]
      split
      · rcases hopt : (deflation44 sq diag col0 (i + 1) (i + 2)).2.2 with _ | rot <;>
          dsimp only
        · obtain ⟨ha, hb⟩ := ih (i + 1) (by omega)
            (deflation44 sq diag col0 (i + 1) (i + 2)).1
            (deflation44 sq diag col0 (i + 1) (i + 2)).2.1 rots
          obtain ⟨hc, hd⟩ :=
            deflation44_preserve0 sq diag col0 (i + 1) (i + 2) (by omega) (by omega)
          exact ⟨ha.trans hc, hb.trans hd⟩
        · obtain ⟨ha, hb⟩ := ih (i + 1) (by omega)
            (deflation44 sq diag col0 (i + 1) (i + 2)).1
            (deflation44 sq diag col0 (i + 1) (i + 2)).2.1 (rots ++ [(rot, i + 2)])
          obtain ⟨hc, hd⟩ :=
            deflation44_preserve0 sq diag col0 (i + 1) (i + 2) (by omega) (by omega)
          exact ⟨ha.trans hc, hb.trans hd⟩
      · exact ih (i + 1) (by omega) diag col0 rots

theorem loop44_diag0 (sq : ℚ → ℚ) (strict : ℚ) (diag col0 : List ℚ)
    (rots : List (Rot × ℕ)) (i : ℕ) :
    getQ (loop44 sq strict diag col0 rots i).1 0 = getQ diag 0 :=
  (loop44_preserve0 sq strict i diag col0 rots).1

theorem loop44_col00 (sq : ℚ → ℚ) (strict : ℚ) (diag col0 : List ℚ)
    (rots : List (Rot × ℕ)) (i : ℕ) :
    getQ (loop44 sq strict diag col0 rots i).2.1 0 = getQ col0 0 :=
  (loop44_preserve0 sq strict i diag col0 rots).2

theorem deflate43Pass_col0_length (sq : ℚ → ℚ) (coarse : ℚ) (n : ℕ)
    (diag col0 : List ℚ) (u : List (List ℚ)) :
    (deflate43Pass sq coarse n diag col0 u).2.1.length = col0.length :=
  (deflate43Pass_lengths sq coarse n diag col0 u).2

/-- C8 counterexample: two concrete runs of `deflate`.
With `diag = [1, 2]`, `col0 = [1, 3]`, `k = 1`, `ε = 2⁻¹⁰`,
`czt = 2⁻⁵⁰`, the returned arrays have `diag[0] = 1 < |col0[1]| = 3`,
refuting `diag[0] ≥ |col0[i]| for i ≥ 1`.  With
`diag = [1, 3/10, 2]`, `col0 = [1, 1, 1]`, `k = 1`, `ε = 2⁻⁶⁰`,
`czt = 1/2` (the spec only requires `near_zero ≥ 0`), the returned
`diag = [1, 2, 3/10]` is not non-decreasing on `[1, n)`. -/
theorem deflate_invariant_counterexample :
    (getQ (deflate ratSqrt [1, 2] [1, 3] [[1]] none 1 (1 / 1024) (1 / 2 ^ 50)).diag 0 <
      absQ (getQ (deflate ratSqrt [1, 2] [1, 3] [[1]] none 1
        (1 / 1024) (1 / 2 ^ 50)).col0 1)) ∧
    (getQ (deflate ratSqrt [1, 3 / 10, 2] [1, 1, 1] [[1]] none 1
        (1 / 2 ^ 60) (1 / 2)).diag 1 >
      getQ (deflate ratSqrt [1, 3 / 10, 2] [1, 1, 1] [[1]] none 1
        (1 / 2 ^ 60) (1 / 2)).diag 2) := by
  constructor <;>
    norm_num [deflate, deflate42, deflate43Pass, deflation43, deflation44,
      deflatePermBuild, deflateTotalFixup, deflateSortApply, scan44, loop44,
      maxAbs, absQ, getQ, setQ, swapQ, getN, swapN, ratSqrt,
      List.range_succ, List.range'_succ]

/-- C8 (amended): when `deflate` returns, `col0[0] = diag[0]`.
(The other two conjuncts of the claimed invariant fail on the code;
see the counterexample.) -/
theorem deflate_col0_head (sq : ℚ → ℚ) (diag col0 : List ℚ)
    (u : List (List ℚ)) (v : Option (List (List ℚ))) (k : ℕ)
    (epsilon czt : ℚ) (hlen : col0.length = diag.length) :
    getQ (deflate sq diag col0 u v k epsilon czt).col0 0 =
      getQ (deflate sq diag col0 u v k epsilon czt).diag 0 := by
  rcases Nat.eq_zero_or_pos diag.length with hn | hn
  · have hd : diag = [] := List.length_eq_zero.mp hn
    have hc : col0 = [] := List.length_eq_zero.mp (by rw [hlen, hn])
    subst hd; subst hc
    simp [deflate, deflate42, deflate43Pass, deflatePermBuild,
      deflateTotalFixup, deflateSortApply, scan44, loop44, maxAbs,
      getQ, setQ, swapQ, getN, swapN, absQ]
  · unfold deflate
    dsimp only
    rw [loop44_col00, loop44_diag0, getQ_set_self_total,
      deflateSortApply_col0_length, deflate43Pass_col0_length,
      deflate42_length, apply_ite List.length, setQ_length, ite_self,
      if_pos (show 0 < col0.length by omega)]

/-- Witness for the amended `deflate` head invariant. -/
theorem deflate_col0_head_witness :
    ([(5 : ℚ), 6].length = [(7 : ℚ), 8].length) ∧
    getQ (deflate ratSqrt [7, 8] [5, 6] [[1]] none 1 (1 / 4) (1 / 8)).col0 0 =
      getQ (deflate ratSqrt [7, 8] [5, 6] [[1]] none 1 (1 / 4) (1 / 8)).diag 0 :=
  ⟨rfl, deflate_col0_head ratSqrt [7, 8] [5, 6] [[1]] none 1 (1 / 4) (1 / 8) rfl⟩

/-- C9 counterexample: on `diag = [1, 0]`, `col0 = [3, 4]`, `k = 1`,
`ε = 2⁻¹⁰`, `czt = 2⁻⁵⁰`, condition 4.3 records the Jacobi rotation
`(3/5, −4/5)` at index 1 in the deferred list, yet `U` is returned
exactly as it was passed in: the rotation has visibly not been applied
to `U` by the time `deflate` returns (applying it would change `U`). -/
theorem deflation43_apply_counterexample :
    (deflate ratSqrt [1, 0] [3, 4] [[1, 0, 0], [0, 1, 0]] none 1
        (1 / 1024) (1 / 2 ^ 50)).rots0 = [(⟨3 / 5, -(4 / 5)⟩, 1)] ∧
    (deflate ratSqrt [1, 0] [3, 4] [[1, 0, 0], [0, 1, 0]] none 1
        (1 / 1024) (1 / 2 ^ 50)).u = [[1, 0, 0], [0, 1, 0]] ∧
    rotApplyRows ⟨3 / 5, -(4 / 5)⟩ [[1, 0, 0], [0, 1, 0]] 0 1 ≠
      [[1, 0, 0], [0, 1, 0]] := by
  refine ⟨?_, ?_, ?_⟩ <;>
    norm_num [deflate, deflate42, deflate43Pass, deflation43, deflation44,
      deflatePermBuild, deflateTotalFixup, deflateSortApply, scan44, loop44,
      maxAbs, absQ, getQ, setQ, swapQ, getN, swapN, ratSqrt,
      rotApplyRows, rotApplyPair,
      List.range_succ, List.range'_succ]

/-- C9 (amended): during deflation the condition-4.3 rotations are
recorded in the deferred list but are not applied to `U`: `deflate`
returns `U` (and `V`) exactly as passed (the source's `deflation43`
receives `_u` and ignores it); the recorded rotations are applied to
the inner factor `um` only after the secular solve. -/
theorem deflate_frame (sq : ℚ → ℚ) (diag col0 : List ℚ)
    (u : List (List ℚ)) (v : Option (List (List ℚ))) (k : ℕ)
    (epsilon czt : ℚ) :
    (deflate sq diag col0 u v k epsilon czt).u = u ∧
    (deflate sq diag col0 u v k epsilon czt).v = v := by
  constructor
  · unfold deflate
    dsimp only
    exact deflate43Pass_u _ _ _ _ _ _
  · rfl

/-! ## C10: all-zero early exit of `bidiag_svd_impl` -/

theorem maxAbs_zero (l : List ℚ) (h : ∀ x ∈ l, x = 0) : maxAbs l = 0 := by
  unfold maxAbs
  induction l with
  | nil => rfl
  | cons x t ih =>
    have hx : x = 0 := h x (List.mem_cons_self x t)
    have h0 : (if absQ x > 0 then absQ x else 0) = 0 := by
      subst hx
      simp [absQ]
    simp only [List.foldl_cons, h0]
    exact ih fun y hy => h y (List.mem_cons_of_mem x hy)

theorem getQ_map_zero (l : List ℚ) (j : ℕ) :
    getQ (l.map fun _ => (0 : ℚ)) j = 0 := by
  unfold getQ
  rcases h : l[j]? with _ | x <;>
    simp [List.getD_eq_getElem?_getD, List.getElem?_map, h]

theorem entryQ_fillZero (m : List (List ℚ)) (i j : ℕ) :
    entryQ (fillZero m) i j = 0 := by
  unfold entryQ fillZero
  rcases h : m[i]? with _ | row <;>
    simp [List.getD_eq_getElem?_getD, List.getElem?_map, h, getQ_map_zero, getQ]

theorem fillZero_length (m : List (List ℚ)) : (fillZero m).length = m.length := by
  simp [fillZero]

theorem fillZero_row_length (m : List (List ℚ)) (i : ℕ) :
    ((fillZero m).getD i []).length = (m.getD i []).length := by
  unfold fillZero
  rcases h : m[i]? with _ | row <;>
    simp [List.getD_eq_getElem?_getD, List.getElem?_map, h]

theorem setEntry_length (m : List (List ℚ)) (i j : ℕ) (x : ℚ) :
    (setEntry m i j x).length = m.length := by
  simp [setEntry]

theorem setEntry_row_length (m : List (List ℚ)) (i j : ℕ) (x : ℚ) (i' : ℕ) :
    ((setEntry m i j x).getD i' []).length = (m.getD i' []).length := by
  unfold setEntry
  by_cases h : i = i'
  · subst h
    by_cases hl : i < m.length
    · simp [List.getD_eq_getElem?_getD, List.getElem?_set_self, hl]
    · rw [List.set_eq_of_length_le (by omega)]
  · simp [List.getD_eq_getElem?_getD, List.getElem?_set_ne h]

theorem entryQ_setEntry_self (m : List (List ℚ)) (i j : ℕ) (x : ℚ)
    (hi : i < m.length) (hj : j < (m.getD i []).length) :
    entryQ (setEntry m i j x) i j = x := by
  unfold entryQ setEntry
  rw [show (m.set i ((m.getD i []).set j x)).getD i [] =
      (m.getD i []).set j x by
    simp [List.getD_eq_getElem?_getD, List.getElem?_set_self, hi]]
  exact getQ_set_self _ _ _ hj

theorem entryQ_setEntry_ne (m : List (List ℚ)) (i j : ℕ) (x : ℚ)
    (i' j' : ℕ) (h : i ≠ i' ∨ j ≠ j') :
    entryQ (setEntry m i j x) i' j' = entryQ m i' j' := by
  unfold entryQ setEntry
  by_cases hii : i = i'
  · subst hii
    have hjj : j ≠ j' := h.resolve_left (by simp)
    by_cases hl : i < m.length
    · rw [show (m.set i ((m.getD i []).set j x)).getD i [] =
          (m.getD i []).set j x by
        simp [List.getD_eq_getElem?_getD, List.getElem?_set_self, hl]]
      exact getQ_set_ne _ _ _ _ hjj
    · rw [List.set_eq_of_length_le (by omega)]
  · congr 1
    simp [List.getD_eq_getElem?_getD, List.getElem?_set_ne hii]

theorem entryQ_setEntry_self_total (m : List (List ℚ)) (t : ℕ) (x : ℚ) :
    entryQ (setEntry m t t x) t t =
      if t < m.length ∧ t < (m.getD t []).length then x else entryQ m t t := by
  by_cases h1 : t < m.length
  · by_cases h2 : t < (m.getD t []).length
    · rw [if_pos ⟨h1, h2⟩]
      exact entryQ_setEntry_self m t t x h1 h2
    · rw [if_neg (by tauto)]
      unfold entryQ setEntry
      rw [show (m.set t ((m.getD t []).set t x)).getD t [] =
          (m.getD t []).set t x by
        simp [List.getD_eq_getElem?_getD, List.getElem?_set_self, h1]]
      unfold getQ
      rw [List.set_eq_of_length_le (by omega)]
  · rw [if_neg (by tauto)]
    unfold entryQ setEntry
    rw [List.set_eq_of_length_le (by omega)]

theorem entryQ_diagFold (l : List ℕ) :
    ∀ (m : List (List ℚ)) (i j : ℕ),
      entryQ (l.foldl (fun acc t => setEntry acc t t 1) m) i j =
        if i = j ∧ i ∈ l ∧ i < m.length ∧ j < (m.getD i []).length then 1
        else entryQ m i j := by
  induction l with
  | nil => intro m i j; simp
  | cons t rest ih =>
    intro m i j
    rw [List.foldl_cons, ih, setEntry_length, setEntry_row_length]
    by_cases hti : t = i
    · subst hti
      by_cases hij : t = j
      · subst hij
        rw [entryQ_setEntry_self_total]
        by_cases hb : t < m.length ∧ t < (m.getD t []).length
        · by_cases hmem : t ∈ rest
          · rw [if_pos ⟨rfl, hmem, hb.1, hb.2⟩,
              if_pos ⟨rfl, List.mem_cons_self t rest, hb.1, hb.2⟩]
          · rw [if_neg (by tauto), if_pos hb,
              if_pos ⟨rfl, List.mem_cons_self t rest, hb.1, hb.2⟩]
        · rw [if_neg (by tauto), if_neg (by tauto), if_neg (by tauto)]
      · rw [entryQ_setEntry_ne _ _ _ _ _ _ (Or.inr hij),
          if_neg (by tauto), if_neg (by tauto)]
    · rw [entryQ_setEntry_ne _ _ _ _ _ _ (Or.inl hti)]
      refine if_congr ?_ rfl rfl
      constructor
      · rintro ⟨h1, h2, h3⟩
        exact ⟨h1, List.mem_cons_of_mem t h2, h3⟩
      · rintro ⟨h1, h2, h3⟩
        rcases List.mem_cons.mp h2 with h2 | h2
        · omega
        · exact ⟨h1, h2, h3⟩

theorem getD_row_mem {α : Type _} (l : List α) (d : α) (i : ℕ)
    (h : i < l.length) : l.getD i d ∈ l := by
  rw [List.getD_eq_getElem?_getD, List.getElem?_eq_getElem h]
  exact List.getElem_mem h

/-- C10: when every entry of `diag` and `subdiag` is zero, the maximum
absolute value is zero and `bidiag_svd_impl` returns early — whatever
the remainder of the algorithm (`rest`) would do: `diag` is returned
unchanged (hence all zero), `U` becomes the identity in full
`(n+1)×(n+1)` storage, or carries `u[0,0] = 1` and `u[1,n] = 1` with
all other entries zero in compact `2×(n+1)` storage, and `V` (when
requested, `n×n`) becomes the identity. -/
theorem bidiag_svd_impl_zero_input
    (rest : List ℚ → List ℚ → List (List ℚ) → Option (List (List ℚ)) → BidiagImplOut)
    (diag subdiag : List ℚ) (u : List (List ℚ)) (v : Option (List (List ℚ)))
    (hd : ∀ x ∈ diag, x = 0) (hs : ∀ x ∈ subdiag, x = 0) :
    (bidiag_svd_impl_entry rest diag subdiag u v).diag = diag ∧
    (bidiag_svd_impl_entry rest diag subdiag u v).subdiag = subdiag ∧
    (u.length = diag.length + 1 →
      (∀ row ∈ u, row.length = diag.length + 1) →
      ∀ i j, i < diag.length + 1 → j < diag.length + 1 →
        entryQ (bidiag_svd_impl_entry rest diag subdiag u v).u i j =
          if i = j then 1 else 0) ∧
    (u.length = 2 → diag.length + 1 ≠ 2 →
      (∀ row ∈ u, row.length = diag.length + 1) →
      ∀ i j, i < 2 → j < diag.length + 1 →
        entryQ (bidiag_svd_impl_entry rest diag subdiag u v).u i j =
          if (i = 0 ∧ j = 0) ∨ (i = 1 ∧ j = diag.length) then 1 else 0) ∧
    (∀ vm, v = some vm →
      (∀ row ∈ vm, row.length = vm.length) →
      ∀ i j, i < vm.length → j < vm.length →
        entryQ ((bidiag_svd_impl_entry rest diag subdiag u v).v.getD []) i j =
          if i = j then 1 else 0) := by
  have hmax : maxAbs (diag ++ subdiag) = 0 :=
    maxAbs_zero _ (by
      intro x hx
      rcases List.mem_append.mp hx with h | h
      · exact hd x h
      · exact hs x h)
  unfold bidiag_svd_impl_entry
  rw [if_pos hmax]
  refine ⟨rfl, rfl, ?_, ?_, ?_⟩
  · intro hlen hrows i j hi hj
    dsimp only
    rw [if_pos (by rw [fillZero_length]; exact hlen)]
    unfold fillDiagOnes
    rw [entryQ_diagFold, fillZero_length, fillZero_row_length]
    have hrow : (u.getD i []).length = diag.length + 1 :=
      hrows _ (getD_row_mem u [] i (by omega))
    by_cases hij : i = j
    · rw [if_pos ⟨hij, by simp [List.mem_range, fillZero_length]; omega,
        by omega, by omega⟩, if_pos hij]
    · rw [if_neg (by tauto), if_neg hij]
      exact entryQ_fillZero u i j
  · intro h2 hne hrows i j hi hj
    dsimp only
    rw [if_neg (by rw [fillZero_length]; omega)]
    have hrow0 : ((fillZero u).getD 0 []).length = diag.length + 1 := by
      rw [fillZero_row_length]
      exact hrows _ (getD_row_mem u [] 0 (by omega))
    have hrow1 : ((fillZero u).getD 1 []).length = diag.length + 1 := by
      rw [fillZero_row_length]
      exact hrows _ (getD_row_mem u [] 1 (by omega))
    by_cases hp0 : i = 0 ∧ j = 0
    · obtain ⟨hi0, hj0⟩ := hp0
      subst hi0; subst hj0
      rw [entryQ_setEntry_ne _ _ _ _ _ _ (Or.inl (by omega)),
        entryQ_setEntry_self _ _ _ _ (by rw [fillZero_length]; omega)
          (by omega)]
      simp
    · by_cases hp1 : i = 1 ∧ j = diag.length
      · obtain ⟨hi1, hj1⟩ := hp1
        subst hi1; subst hj1
        rw [entryQ_setEntry_self _ _ _ _ (by rw [setEntry_length, fillZero_length]; omega)
          (by rw [setEntry_row_length]; omega)]
        simp
      · have houter : (1 : ℕ) ≠ i ∨ diag.length ≠ j := by
          rcases eq_or_ne i 1 with h | h
          · right; intro hc; exact hp1 ⟨h, hc.symm⟩
          · left; omega
        have hinner : (0 : ℕ) ≠ i ∨ (0 : ℕ) ≠ j := by
          rcases eq_or_ne i 0 with h | h
          · right; intro hc; exact hp0 ⟨h, hc.symm⟩
          · left; omega
        rw [entryQ_setEntry_ne _ _ _ _ _ _ houter,
          entryQ_setEntry_ne _ _ _ _ _ _ hinner, entryQ_fillZero,
          if_neg (by tauto)]
  · intro vm hv hrows i j hi hj
    subst hv
    dsimp only
    simp only [Option.map_some', Option.getD_some]
    unfold fillDiagOnes
    rw [entryQ_diagFold, fillZero_length, fillZero_row_length]
    have hrow : (vm.getD i []).length = vm.length :=
      hrows _ (getD_row_mem vm [] i (by omega))
    by_cases hij : i = j
    · rw [if_pos ⟨hij, by simp [List.mem_range, fillZero_length]; omega,
        by omega, by omega⟩, if_pos hij]
    · rw [if_neg (by tauto), if_neg hij]
      exact entryQ_fillZero vm i j

/-- Witness for the all-zero early exit, at a full-storage `3×3` `U`
and a `2×2` `V`, `n = 2`. -/
theorem bidiag_svd_impl_zero_input_witness :
    ((∀ x ∈ [(0 : ℚ), 0], x = 0) ∧ (∀ x ∈ [(0 : ℚ), 0], x = 0)) ∧
    ((bidiag_svd_impl_entry (fun d s uu vv => ⟨d, s, uu, vv⟩) [0, 0] [0, 0]
        [[5, 5, 5], [5, 5, 5], [5, 5, 5]] (some [[7, 7], [7, 7]])).diag = [0, 0] ∧
     (bidiag_svd_impl_entry (fun d s uu vv => ⟨d, s, uu, vv⟩) [0, 0] [0, 0]
        [[5, 5, 5], [5, 5, 5], [5, 5, 5]] (some [[7, 7], [7, 7]])).subdiag = [0, 0] ∧
     (([[(5 : ℚ), 5, 5], [5, 5, 5], [5, 5, 5]]).length = ([(0 : ℚ), 0]).length + 1 →
      (∀ row ∈ [[(5 : ℚ), 5, 5], [5, 5, 5], [5, 5, 5]],
        row.length = ([(0 : ℚ), 0]).length + 1) →
      ∀ i j, i < ([(0 : ℚ), 0]).length + 1 → j < ([(0 : ℚ), 0]).length + 1 →
        entryQ (bidiag_svd_impl_entry (fun d s uu vv => ⟨d, s, uu, vv⟩) [0, 0] [0, 0]
          [[5, 5, 5], [5, 5, 5], [5, 5, 5]] (some [[7, 7], [7, 7]])).u i j =
          if i = j then 1 else 0) ∧
     (([[(5 : ℚ), 5, 5], [5, 5, 5], [5, 5, 5]]).length = 2 →
      ([(0 : ℚ), 0]).length + 1 ≠ 2 →
      (∀ row ∈ [[(5 : ℚ), 5, 5], [5, 5, 5], [5, 5, 5]],
        row.length = ([(0 : ℚ), 0]).length + 1) →
      ∀ i j, i < 2 → j < ([(0 : ℚ), 0]).length + 1 →
        entryQ (bidiag_svd_impl_entry (fun d s uu vv => ⟨d, s, uu, vv⟩) [0, 0] [0, 0]
          [[5, 5, 5], [5, 5, 5], [5, 5, 5]] (some [[7, 7], [7, 7]])).u i j =
          if (i = 0 ∧ j = 0) ∨ (i = 1 ∧ j = ([(0 : ℚ), 0]).length) then 1 else 0) ∧
     (∀ vm, (some [[(7 : ℚ), 7], [7, 7]]) = some vm →
      (∀ row ∈ vm, row.length = vm.length) →
      ∀ i j, i < vm.length → j < vm.length →
        entryQ ((bidiag_svd_impl_entry (fun d s uu vv => ⟨d, s, uu, vv⟩) [0, 0] [0, 0]
          [[5, 5, 5], [5, 5, 5], [5, 5, 5]] (some [[7, 7], [7, 7]])).v.getD []) i j =
          if i = j then 1 else 0)) :=
  ⟨⟨by simp, by simp⟩,
    bidiag_svd_impl_zero_input (fun d s uu vv => ⟨d, s, uu, vv⟩) [0, 0] [0, 0]
      [[5, 5, 5], [5, 5, 5], [5, 5, 5]] (some [[7, 7], [7, 7]])
      (by simp) (by simp)⟩

end BidiagRealSvd
